import Mathlib

/-!
Verification of the runex ignore-logic core (`runex/wildmatch.py` and
`runex/ignore_logic.py`) against its natural-language specification.

The Python source is shallowly embedded: strings become `List Char`,
the `re` regular-expression fragments that the code generates are modelled
by a small abstract-syntax type together with an executable matcher that
mirrors the behaviour of CPython's `re` on exactly the fragment shapes the
code produces, and every Python function of the core becomes a total Lean
function with the same branch structure.

Model boundary notes (each is repeated at the definition it concerns):
* Unicode-wide predicates (`str.isalpha`, `\w`, `\d`, ...) are modelled by
  their ASCII restrictions; every theorem below either treats these
  predicates parametrically (the same model function appears on both sides
  of an equivalence) or applies them to ASCII characters only, where the
  model is exact.
* A character-class body containing a bare `]` (only producible by the
  POSIX-token skipping quirk of the bracket scanner) is treated as a
  malformed class; no theorem below depends on that corner.
-/

namespace Runex

/-! ### Python `re` character classes

The Python code builds character classes as strings (`f"^[{expanded}]$"`,
`f"^[^{expanded}]$"`, `f"[{content}]"`) and hands them to `re`.  We model
the body of such a class (the text between the brackets, with a leading
`^` still attached for negated classes) by parsing it into items exactly
as CPython's `sre_parse` does for character sets, and evaluating
membership of a single character. -/

/-- Items of a parsed character set: a literal character, a character
range, or one of the shorthand classes `\d`, `\w`, `\s` that the POSIX
expansion table produces. -/
inductive ClassItem where
  | lit (c : Char)
  | rng (lo hi : Char)
  | dcls
  | wcls
  | scls
deriving DecidableEq

/-- `\d` of Python `re` (Unicode decimal digit), modelled by its ASCII
restriction `0-9`; exact on ASCII input. -/
def pyIsDigit (c : Char) : Bool := c.isDigit

/-- `\w` of Python `re` (Unicode word character), modelled by its ASCII
restriction (letters, digits, underscore); exact on ASCII input. -/
def pyIsWord (c : Char) : Bool := c.isAlphanum || c = '_'

/-- `\s` of Python `re` (Unicode whitespace), modelled by its ASCII
restriction (space, tab, newline, return, vertical tab, form feed);
exact on ASCII input. -/
def pyIsSpace (c : Char) : Bool :=
  c = ' ' || c = '\t' || c = '\n' || c = '\r' || c = Char.ofNat 11 || c = Char.ofNat 12

/-- Membership of a single character in one set item.  Ranges compare by
code point, as `re` does. -/
def itemMatch (it : ClassItem) (c : Char) : Bool :=
  match it with
  | .lit a => c = a
  | .rng lo hi => lo ≤ c ∧ c ≤ hi
  | .dcls => pyIsDigit c
  | .wcls => pyIsWord c
  | .scls => pyIsSpace c

/-- Membership in a whole set, with the `re.IGNORECASE` behaviour modelled
by additionally trying the ASCII case variants of the character. -/
def membSet (items : List ClassItem) (icase : Bool) (c : Char) : Bool :=
  if icase then
    items.any (fun it => itemMatch it c || itemMatch it c.toLower || itemMatch it c.toUpper)
  else
    items.any (fun it => itemMatch it c)

/-- Numeric value of a hexadecimal digit, `none` otherwise. -/
def hexVal (c : Char) : Option Nat :=
  if '0' ≤ c ∧ c ≤ '9' then some (c.toNat - '0'.toNat)
  else if 'a' ≤ c ∧ c ≤ 'f' then some (c.toNat - 'a'.toNat + 10)
  else if 'A' ≤ c ∧ c ≤ 'F' then some (c.toNat - 'A'.toNat + 10)
  else none

/-- The non-hex `\`-escapes recognised inside a character set by
`sre_parse._class_escape`: the control escapes `\t\n\r\v\f\a\b`, the
shorthand classes `\d\w\s`, and literal escapes of non-alphanumeric
characters; an unknown alphanumeric escape is an error (`none`), as in
`re` (octal escapes, which no construction site of this code base
produces, are conservatively treated as errors). -/
def classEscChar (e : Char) : Option (Char ⊕ ClassItem) :=
  if e = 'd' then some (Sum.inr .dcls)
  else if e = 'w' then some (Sum.inr .wcls)
  else if e = 's' then some (Sum.inr .scls)
  else if e = 't' then some (Sum.inl '\t')
  else if e = 'n' then some (Sum.inl '\n')
  else if e = 'r' then some (Sum.inl '\r')
  else if e = 'v' then some (Sum.inl (Char.ofNat 11))
  else if e = 'f' then some (Sum.inl (Char.ofNat 12))
  else if e = 'a' then some (Sum.inl (Char.ofNat 7))
  else if e = 'b' then some (Sum.inl (Char.ofNat 8))
  else if e.isAlphanum then none
  else some (Sum.inl e)

/-- Tokens of a character-set body: an unescaped `-` (which can act as a
range operator), an unescaped `]`, or a resolved atom (literal character
or shorthand class).  The raw/escaped distinction matters because only a
raw `-` forms a range and only a raw `]` can terminate a set. -/
inductive SetTok where
  | rawDash
  | rawRB
  | code (c : Char ⊕ ClassItem)
deriving DecidableEq

/-- Tokenize a character-set body: resolve `\xNN` hex escapes (exactly
two hex digits, else error) and the other escapes via `classEscChar`;
every other character is a raw token. -/
def lexSet (l : List Char) : Option (List SetTok) :=
  match l with
  | [] => some []
  | c :: rest =>
    if c = '\\' then
      match rest with
      | [] => none
      | e :: r2 =>
        if e = 'x' then
          match r2 with
          | h1 :: h2 :: r3 =>
            match hexVal h1, hexVal h2 with
            | some v1, some v2 =>
              (lexSet r3).map (fun ts => .code (Sum.inl (Char.ofNat (16 * v1 + v2))) :: ts)
            | _, _ => none
          | _ => none
        else
          match classEscChar e with
          | none => none
          | some code => (lexSet r2).map (fun ts => .code code :: ts)
    else if c = '-' then (lexSet rest).map (fun ts => .rawDash :: ts)
    else if c = ']' then (lexSet rest).map (fun ts => .rawRB :: ts)
    else (lexSet rest).map (fun ts => .code (Sum.inl c) :: ts)

/-- The literal character denoted by a token when it is used as a plain
atom (`code1`/`code2` of the sre parsing loop). -/
def tokCode (t : SetTok) : Char ⊕ ClassItem :=
  match t with
  | .rawDash => Sum.inl '-'
  | .rawRB => Sum.inl ']'
  | .code c => c

/-- The set item contributed by an atom standing alone. -/
def codeItem (c : Char ⊕ ClassItem) : ClassItem :=
  match c with
  | Sum.inl a => .lit a
  | Sum.inr it => it

/-- Parse the token stream of a character-set body, mirroring the
set-parsing loop of `sre_parse._parse`: one atom at a time, with `X-Y`
ranges triggered by a raw `-` (a range endpoint must be a literal, and a
reversed range is an error), a trailing raw `-` becoming a literal, and a
raw `]` acting as a literal only as the very first item.  A raw `]` later
in the body would end the class early in real `re` and leak the rest of
the body into the surrounding regex; no construction site of this code
base produces that shape, and it is conservatively treated as an error
here.  An empty body is an error (`[]` is an unterminated set in `re`). -/
def parseToks : List SetTok → List ClassItem → Option (List ClassItem)
  | [], acc => if acc = [] then none else some acc
  | [t, .rawDash], acc =>
    if t = .rawRB ∧ acc ≠ [] then none
    else some (acc ++ [codeItem (tokCode t), .lit '-'])
  | t :: .rawDash :: .rawRB :: _, acc =>
    if t = .rawRB ∧ acc ≠ [] then none
    else none
  | t :: .rawDash :: t2 :: ts3, acc =>
    if t = .rawRB ∧ acc ≠ [] then none
    else
      match tokCode t, tokCode t2 with
      | Sum.inl lo, Sum.inl hi =>
        if hi < lo then none else parseToks ts3 (acc ++ [.rng lo hi])
      | _, _ => none
  | t :: ts1, acc =>
    if t = .rawRB ∧ acc ≠ [] then none
    else parseToks ts1 (acc ++ [codeItem (tokCode t)])

/-- Parse a whole character-set body into its items. -/
def parseSetItems (l : List Char) : Option (List ClassItem) :=
  (lexSet l).bind (fun ts => parseToks ts [])

/-- Evaluate a Python character class `[` ++ body ++ `]` (with `body`
possibly starting with the negation marker `^`) on a single character:
`none` models `re.error` at compile time, `some b` a successful
single-character fullmatch result. -/
def reClassMatch (body : List Char) (icase : Bool) (c : Char) : Option Bool :=
  match body with
  | '^' :: rest => (parseSetItems rest).map (fun items => !membSet items icase c)
  | _ => (parseSetItems body).map (fun items => membSet items icase c)

/-! ### Flags and outcome constants of `wildmatch.py` -/

/-- Abort matching entirely. -/
def WM_ABORT_ALL : Int := -1
/-- Abort due to `WM_PATHNAME` restrictions when encountering `/`. -/
def WM_ABORT_TO_STARSTAR : Int := -2
/-- The text fully matches the pattern. -/
def WM_MATCH : Int := 1
/-- The text does not match the pattern. -/
def WM_NOMATCH : Int := 0

/-- Case-insensitive matching flag. -/
def WM_CASEFOLD : Nat := 1
/-- `*` does not match `/`. -/
def WM_PATHNAME : Nat := 2
/-- POSIX bracket expressions use Unicode expansions. -/
def WM_UNICODE : Nat := 4

/-- `flags & f` as a Boolean test, as the Python code uses bit masks. -/
def hasFlag (flags f : Nat) : Bool := (flags &&& f) != 0

theorem hasFlag_eval (flags f : Nat) : hasFlag flags f = decide ((flags &&& f) ≠ 0) := by
  by_cases h : (flags &&& f) = 0 <;> simp [hasFlag, h]

/-! ### POSIX class machinery of `wildmatch.py`

`POSIX_MAPPING`, the custom Unicode-aware class functions, and
`expand_posix_classes`. -/

/-- Python `ch.isalpha()` (custom function `posix_alpha`), modelled by its
ASCII restriction; exact on ASCII input. -/
def posix_alpha (c : Char) : Bool := c.isAlpha

/-- `unicodedata.category(ch) == "Cc"` (custom function `posix_cntrl`).
The Unicode `Cc` category is exactly U+0000..U+001F and U+007F..U+009F,
so this model is exact. -/
def posix_cntrl (c : Char) : Bool := c.toNat ≤ 0x1F || (0x7F ≤ c.toNat && c.toNat ≤ 0x9F)

/-- Python `ch.islower()` (custom function `posix_lower`), modelled by its
ASCII restriction; exact on ASCII input. -/
def posix_lower (c : Char) : Bool := c.isLower

/-- `ch.isprintable() and not category(ch).startswith("C")` (custom
function `posix_print`), modelled by its ASCII restriction
U+0020..U+007E; exact on ASCII input. -/
def posix_print (c : Char) : Bool := 0x20 ≤ c.toNat && c.toNat ≤ 0x7E

/-- The ASCII characters whose Unicode general category is `P*`
(punctuation).  The braces and the apostrophe are written via their code
points. -/
def punctChars : List Char :=
  "!\"#%&".data ++ [Char.ofNat 39] ++ "()*,-./:;?@[\\]_".data ++ [Char.ofNat 123, Char.ofNat 125]

/-- `unicodedata.category(ch).startswith("P")` (custom function
`posix_punct`), modelled by its ASCII restriction; exact on ASCII input
(the ASCII symbols `$ + < = > ^ \x60 | ~` are category `S`, not `P`). -/
def posix_punct (c : Char) : Bool := punctChars.contains c

/-- Python `ch.isupper()` (custom function `posix_upper`), modelled by its
ASCII restriction; exact on ASCII input. -/
def posix_upper (c : Char) : Bool := c.isUpper

/-- The ASCII column of `POSIX_MAPPING` (class name → character-set
fragment usable inside a regex character class); an unknown name yields
the empty string, as `POSIX_MAPPING.get(cls, ('', ''))` does. -/
def posixAsciiExp (name : List Char) : List Char :=
  if name = "alnum".data then "a-zA-Z0-9".data
  else if name = "alpha".data then "a-zA-Z".data
  else if name = "ascii".data then "\\x00-\\x7F".data
  else if name = "blank".data then " \t".data
  else if name = "cntrl".data then "\\x00-\\x1F\\x7F".data
  else if name = "digit".data then "0-9".data
  else if name = "graph".data then "\\x21-\\x7E".data
  else if name = "lower".data then "a-z".data
  else if name = "print".data then "\\x20-\\x7E".data
  else if name = "punct".data then
    "!\"\\#$%&".data ++ [Char.ofNat 39] ++ "()*+,\\-./:;<=>?@\\[\\\\\\]^_".data ++
      [Char.ofNat 96, Char.ofNat 123, Char.ofNat 124, Char.ofNat 125] ++ "~".data
  else if name = "space".data then " \t\r\n".data ++ [Char.ofNat 11, Char.ofNat 12]
  else if name = "upper".data then "A-Z".data
  else if name = "word".data then "A-Za-z0-9_".data
  else if name = "xdigit".data then "A-Fa-f0-9".data
  else []

/-- The Unicode column of `POSIX_MAPPING`: `none` models the Python
`None` entries (which make `expand_posix_classes` fall back to the ASCII
column); an unknown name yields the empty string, as
`POSIX_MAPPING.get(cls, ('', ''))` does. -/
def posixUniExp (name : List Char) : Option (List Char) :=
  if name = "alnum".data then some "\\w".data
  else if name = "alpha".data then none
  else if name = "ascii".data then some "\\x00-\\x7F".data
  else if name = "blank".data then some " \t".data
  else if name = "cntrl".data then none
  else if name = "digit".data then some "\\d".data
  else if name = "graph".data then none
  else if name = "lower".data then none
  else if name = "print".data then none
  else if name = "punct".data then none
  else if name = "space".data then some "\\s".data
  else if name = "upper".data then none
  else if name = "word".data then some "\\w".data
  else if name = "xdigit".data then some "A-Fa-f0-9".data
  else some []

/-- The replacement chosen by the `repl` closure of
`expand_posix_classes`: the Unicode expansion when `WM_UNICODE` is set
and one is available, else the ASCII expansion. -/
def posixExpand (name : List Char) (flags : Nat) : List Char :=
  if hasFlag flags WM_UNICODE then
    match posixUniExp name with
    | some u => u
    | none => posixAsciiExp name
  else posixAsciiExp name

/-- `[a-z]` (the class-name alphabet of `expand_posix_classes`, which is
case sensitive). -/
def lowerAZ (c : Char) : Bool := 'a' ≤ c && c ≤ 'z'

theorem dropWhile_length_le {α : Type} (p : α → Bool) :
    ∀ l : List α, (l.dropWhile p).length ≤ l.length := by
  intro l
  induction l with
  | nil => simp [List.dropWhile]
  | cons x xs ih =>
    rw [List.dropWhile]
    by_cases hp : p x
    · rw [hp]; simp; omega
    · simp [hp]

theorem dwTailLe (p : Char → Bool) (r : List Char) :
    (r.tail.dropWhile p).length ≤ r.length := by
  have h1 := dropWhile_length_le p r.tail
  have h2 : r.tail.length ≤ r.length := by
    rcases r with _ | ⟨x, xs⟩ <;> simp
  omega

mutual

/-- `expand_posix_classes`: replace every occurrence of `[:name:]`
(lowercase name) by its expansion, scanning left to right as `re.sub`
with the pattern `\[:([a-z]+):\]` does; all other characters are kept.
A candidate site `[:` hands the scanned name and remainder to
`epCont`. -/
def expandPosix : List Char → Nat → List Char
  | [], _ => []
  | c :: r, flags =>
    if c = '[' ∧ r.head? = some ':' then
      epCont (r.tail.takeWhile lowerAZ) (r.tail.dropWhile lowerAZ) c r flags
        (dwTailLe lowerAZ r)
    else c :: expandPosix r flags
termination_by l flags => 2 * l.length + 1
decreasing_by
  · simp only [List.length_cons]
    omega
  · simp only [List.length_cons]
    omega

/-- Continuation of `expandPosix` at a `[:` site: if a nonempty lowercase
name is followed by `:]`, emit the expansion and continue after the
token; otherwise emit the `[` and rescan from the next character (the
length bound argument only serves termination). -/
def epCont : (name dw : List Char) → (c : Char) → (r : List Char) → (flags : Nat) →
    dw.length ≤ r.length → List Char
  | name, ':' :: ']' :: after2, c, r, flags, _ =>
    if name ≠ [] then posixExpand name flags ++ expandPosix after2 flags
    else c :: expandPosix r flags
  | _, _, c, r, flags, _ => c :: expandPosix r flags
termination_by name dw c r flags hdw => 2 * r.length + 2
decreasing_by
  · simp_all only [List.length_cons]
    omega
  · omega
  · omega

end

/-- The test `re.fullmatch(r"\[:([a-z]+):\]", bracket_content,
re.IGNORECASE)` of `dowild`, returning the lower-cased class name on
success. -/
def posixTokenName (l : List Char) : Option (List Char) :=
  match l with
  | c1 :: c2 :: rest =>
    if c1 = '[' ∧ c2 = ':' then
      if (rest.takeWhile Char.isAlpha) ≠ [] ∧ rest.dropWhile Char.isAlpha = [':', ']'] then
        some ((rest.takeWhile Char.isAlpha).map Char.toLower)
      else none
    else none
  | _ => none

/-! ### The bracket-expression scanner of `dowild`

`dowild` scans a bracket expression for its closing `]`, skipping
embedded `[:name:]` POSIX tokens (via `pattern.find(":]", p + 2)`). -/

/-- Split a character list at the first occurrence of the two-character
substring `:]`, returning the part before it and the part after it;
`none` if there is no occurrence (`pattern.find(":]", ...) == -1`). -/
def splitCB (l : List Char) : Option (List Char × List Char) :=
  match l with
  | [] => none
  | c :: r =>
    if c = ':' ∧ r.head? = some ']' then some ([], r.tail)
    else (splitCB r).map (fun pr => (c :: pr.1, pr.2))

theorem splitCB_length : ∀ l mid r, splitCB l = some (mid, r) → r.length < l.length := by
  intro l
  induction l with
  | nil => intro mid r h; simp [splitCB] at h
  | cons c rest ih =>
    intro mid r h
    rw [splitCB] at h
    by_cases hc : c = ':' ∧ rest.head? = some ']'
    · rw [if_pos hc] at h
      simp at h
      obtain ⟨h1, h2⟩ := h
      subst h2
      rcases rest with _ | ⟨c2, r2⟩
      · simp at hc
      · simp
        omega
    · rw [if_neg hc] at h
      rcases hmap : splitCB rest with _ | ⟨mid2, r2⟩
      · rw [hmap] at h; simp at h
      · rw [hmap] at h
        simp at h
        have := ih mid2 r2 hmap
        obtain ⟨h1, h2⟩ := h
        subst h2
        simp only [List.length_cons]
        omega

theorem splitTailLt {r mid after : List Char}
    (h : splitCB r.tail = some (mid, after)) :
    ∀ c : Char, after.length < (c :: r).length := by
  intro c
  have hlt := splitCB_length _ _ _ h
  have ht : r.tail.length ≤ r.length := by
    rcases r with _ | ⟨x, xs⟩ <;> simp
  simp
  omega

/-- The scanning loop of the `[` branch of `dowild`: find the closing
`]`, treating `[:`...`:]` spans as opaque; return the bracket content
and the rest of the pattern after the `]`, or `none` when no closing `]`
is found (which `dowild` turns into `WM_ABORT_ALL`). -/
def bracketScan : List Char → Option (List Char × List Char)
  | [] => none
  | c :: r =>
    if c = '[' ∧ r.head? = some ':' then
      match h : splitCB r.tail with
      | none => none
      | some (mid, after) =>
        (bracketScan after).map
          (fun pr => (c :: ':' :: (mid ++ [':', ']']) ++ pr.1, pr.2))
    else if c = ']' then some ([], r)
    else (bracketScan r).map (fun pr => (c :: pr.1, pr.2))
termination_by l => l.length
decreasing_by
  · exact splitTailLt h _
  · simp

theorem bracketScan_length :
    ∀ l content rest, bracketScan l = some (content, rest) → rest.length < l.length := by
  have main : ∀ n, ∀ l : List Char, l.length ≤ n →
      ∀ content rest, bracketScan l = some (content, rest) → rest.length < l.length := by
    intro n
    induction n with
    | zero =>
      intro l hl content rest h
      rcases l with _ | ⟨c, r⟩
      · simp [bracketScan] at h
      · simp at hl
    | succ n ih =>
      intro l hl content rest h
      rcases l with _ | ⟨c, r⟩
      · simp [bracketScan] at h
      · rw [bracketScan] at h
        by_cases hc1 : c = '[' ∧ r.head? = some ':'
        · rw [if_pos hc1] at h
          rcases hsp : splitCB r.tail with _ | ⟨mid, after⟩
          · rw [hsp] at h; simp at h
          · rw [hsp] at h
            simp only [Option.map_eq_some'] at h
            obtain ⟨⟨co2, rest2⟩, hbs, h2⟩ := h
            obtain ⟨-, h2⟩ := Prod.mk.injEq .. ▸ h2
            have hsl := splitCB_length _ _ _ hsp
            have htl : r.tail.length ≤ r.length := by
              rcases r with _ | ⟨x, xs⟩ <;> simp
            have hrec := ih after (by simp at hl; omega) co2 rest2 hbs
            rw [← h2]
            simp at hl ⊢
            omega
        · rw [if_neg hc1] at h
          by_cases hc2 : c = ']'
          · rw [if_pos hc2] at h
            simp at h
            obtain ⟨-, h2⟩ := h
            rw [← h2]
            simp
          · rw [if_neg hc2] at h
            simp only [Option.map_eq_some'] at h
            obtain ⟨⟨co2, rest2⟩, hbs, h2⟩ := h
            obtain ⟨-, h2⟩ := Prod.mk.injEq .. ▸ h2
            have hrec := ih r (by simp at hl; omega) co2 rest2 hbs
            rw [← h2]
            simp
            omega
  intro l
  exact main l.length l (Nat.le_refl _)

/-! ### The wildcard engine `dowild` / `wildmatch`

`dowild` is Python's recursive matcher; `doLoop` is its `while` loop over
the pattern (entered after the leading-`/` anchor handling), and
`starLoop` is the inner `while True` backtracking loop of the `*` branch.
The functions terminate because every call either shortens the pattern,
or keeps it and shortens the text, or keeps both and moves to a phase
that cannot call back at equal arguments; the measure
`4 * (pattern length + text length) + phase` captures this. -/

theorem mTailLt (p t : List Char) :
    4 * (p.tail.length + t.tail.length) + 1 < 4 * (p.length + t.length) + 2 := by
  have hp : p.tail.length ≤ p.length := by rcases p with _ | ⟨x, xs⟩ <;> simp
  have ht : t.tail.length ≤ t.length := by rcases t with _ | ⟨x, xs⟩ <;> simp
  omega

theorem mStarLt (f : Char → Bool) (pr txt : List Char) (pc : Char) :
    4 * ((pr.dropWhile f).length + txt.length) + 3 <
      4 * ((pc :: pr).length + txt.length) + 1 := by
  have := dropWhile_length_le f pr
  simp
  omega

/-- Termination size of a bracket-scan result. -/
def brSize : Option (List Char × List Char) → Nat
  | none => 0
  | some p => p.2.length + 1

theorem mBrCall (pr txt : List Char) (pc : Char) :
    4 * (brSize (bracketScan pr) + txt.length) < 4 * ((pc :: pr).length + txt.length) + 1 := by
  rcases h : bracketScan pr with _ | ⟨content, rest⟩
  · simp [brSize]
    omega
  · have := bracketScan_length _ _ _ h
    simp [brSize]
    omega

/-- The bracket-expression evaluation of the `[` branch of `dowild`,
on the scanned bracket content and the current text character: strip a
leading `!`/`^` negation marker; if the remaining content is exactly a
`[:name:]` token and `WM_UNICODE` is set, use the custom class function
(or the expanded class regex) WITHOUT consulting the negation flag, as
the source does; otherwise evaluate the class regex built from the
expanded content with `^` prepended when negated.  `none` models the
`re.error` path (`WM_ABORT_ALL`). -/
def bracketMatched (content : List Char) (t : Char) (flags : Nat) : Option Bool :=
  let negated : Bool := match content with
    | c0 :: _ => (c0 == '!') || (c0 == '^')
    | [] => false
  let content2 := if negated then content.tail else content
  match posixTokenName content2, hasFlag flags WM_UNICODE with
  | some name, true =>
    if name = "alpha".data then some (posix_alpha t)
    else if name = "cntrl".data then some (posix_cntrl t)
    else if name = "lower".data then some (posix_lower t)
    else if name = "print".data then some (posix_print t)
    else if name = "punct".data then some (posix_punct t)
    else if name = "upper".data then some (posix_upper t)
    else reClassMatch (expandPosix content2 flags) (hasFlag flags WM_CASEFOLD) t
  | _, _ =>
    reClassMatch ((if negated then ['^'] else []) ++ expandPosix content2 flags)
      (hasFlag flags WM_CASEFOLD) t

mutual

/-- `dowild(pattern, text, flags)` of `wildmatch.py`: handle the
leading-`/` anchor, then run the pattern loop. -/
def dowild : List Char → List Char → Nat → Int
  | pat, txt, flags =>
    if pat.head? = some '/' then
      if txt.head? = some '/' then doLoop pat.tail txt.tail flags
      else WM_NOMATCH
    else doLoop pat txt flags
termination_by pat txt flags => 4 * (pat.length + txt.length) + 2
decreasing_by
  · exact mTailLt _ _
  · omega

/-- The `while p < len(pattern)` loop of `dowild`, one iteration per
call.  The text-exhaustion guard, and the `\`, `?`, `*`, `[` and literal
branches, are in the source's order.  In the `[` branch, the negated
Unicode POSIX-class quirk of the source is preserved: when the whole
bracket content is a `[:name:]` token and `WM_UNICODE` is set, the
negation flag is never consulted. -/
def doLoop : List Char → List Char → Nat → Int
  | [], txt, _ => if txt.isEmpty then WM_MATCH else WM_NOMATCH
  | pc :: pr, txt, flags =>
    if txt.isEmpty ∧ pc ≠ '*' then WM_ABORT_ALL
    else if pc = '\\' then
      match pr with
      | [] => WM_NOMATCH
      | lc :: pr2 =>
        match txt with
        | [] => WM_NOMATCH
        | t :: tr => if t = lc then doLoop pr2 tr flags else WM_NOMATCH
    else if pc = '?' then
      match txt with
      | [] => WM_NOMATCH
      | t :: tr =>
        if hasFlag flags WM_PATHNAME ∧ t = '/' then WM_NOMATCH
        else doLoop pr tr flags
    else if pc = '*' then
      if (pr.dropWhile (fun c => c = '*')).isEmpty then
        if hasFlag flags WM_PATHNAME ∧ txt.contains '/' then WM_ABORT_TO_STARSTAR
        else WM_MATCH
      else starLoop (pr.dropWhile (fun c => c = '*')) txt flags
    else if pc = '[' then doBracket (bracketScan pr) txt flags
    else
      match txt with
      | [] => WM_NOMATCH
      | t :: tr =>
        let pch := if hasFlag flags WM_CASEFOLD then pc.toLower else pc
        let tch := if hasFlag flags WM_CASEFOLD then t.toLower else t
        if tch = pch then doLoop pr tr flags else WM_NOMATCH
termination_by pat txt flags => 4 * (pat.length + txt.length) + 1
decreasing_by
  · simp only [List.length_cons]
    omega
  · simp only [List.length_cons]
    omega
  · exact mStarLt _ _ _ _
  · exact mBrCall _ _ _
  · simp only [List.length_cons]
    omega

/-- The continuation of the `[` branch of `doLoop` on the result of
`bracketScan`: no closing `]` is `WM_ABORT_ALL`; otherwise evaluate the
bracket content against the current text character via `bracketMatched`
and consume it on success. -/
def doBracket : Option (List Char × List Char) → List Char → Nat → Int
  | none, _, _ => WM_ABORT_ALL
  | some (content, rest), txt, flags =>
    match txt with
    | [] => WM_NOMATCH
    | t :: tr =>
      match bracketMatched content t flags with
      | none => WM_ABORT_ALL
      | some false => WM_NOMATCH
      | some true => doLoop rest tr flags
termination_by o txt flags => 4 * (brSize o + txt.length)
decreasing_by
  · simp only [brSize, List.length_cons]
    omega

/-- The inner `while True` loop of the `*` branch of `dowild`: try the
rest of the pattern at the current text position, then shrink the text,
stopping early per the `WM_PATHNAME` rules. -/
def starLoop : List Char → List Char → Nat → Int
  | pat, txt, flags =>
    let res := dowild pat txt flags
    if res ≠ WM_NOMATCH ∧ (¬ hasFlag flags WM_PATHNAME ∨ res ≠ WM_ABORT_TO_STARSTAR) then res
    else
      match txt with
      | [] => WM_ABORT_ALL
      | t :: tr =>
        if hasFlag flags WM_PATHNAME ∧ t = '/' then WM_ABORT_TO_STARSTAR
        else starLoop pat tr flags
termination_by pat txt flags => 4 * (pat.length + txt.length) + 3
decreasing_by
  · omega
  · simp only [List.length_cons]
    omega

end

/-- `wildmatch(pattern, text, flags)`: the public wrapper, collapsing
every non-`WM_MATCH` outcome of `dowild` to `WM_NOMATCH`. -/
def wildmatch (pattern text : List Char) (flags : Nat) : Int :=
  if dowild pattern text flags = WM_MATCH then WM_MATCH else WM_NOMATCH

/-! ### The generated path-rule regexes of `ignore_logic.py`

`GitIgnorePattern.compile_regex` builds a regex string from fixed
fragments; `RAtom` is the abstract syntax of exactly those fragments, and
`reMatch` evaluates a fragment list as `re.fullmatch` would evaluate the
concatenated string (the whole-string anchoring of `^`/`$`/`fullmatch` is
built into `reMatch`; the boolean result of the backtracking search is
order-independent, so text positions are tried shortest first). -/

/-- One fragment of a generated regex string:
`lit c` is `re.escape(c)` (a literal character);
`anyStar` is `.*`; `nonSlashStar` is `[^/]*`; `nonSlashOne` is `[^/]`;
`cls body` is `[` ++ body ++ `]` (with a leading `^` inside `body` for a
negated class); `preAnyDir` is `(?:.*/)?`; `tailAnyDir` is `(?:/.*)?`. -/
inductive RAtom where
  | lit (c : Char)
  | anyStar
  | nonSlashStar
  | nonSlashOne
  | cls (body : List Char)
  | preAnyDir
  | tailAnyDir
deriving DecidableEq

mutual

/-- Fullmatch of a fragment list against a text.  `icase` models the
`re.IGNORECASE` flag (used when the scanner is case insensitive). -/
def reMatch (icase : Bool) : List RAtom → List Char → Bool
  | [], t => t.isEmpty
  | a :: as, t =>
    match a with
    | .lit c =>
      match t with
      | [] => false
      | x :: tr =>
        (if icase then x.toLower = c.toLower else x = c) && reMatch icase as tr
    | .nonSlashOne =>
      match t with
      | [] => false
      | x :: tr => (x != '/') && reMatch icase as tr
    | .cls body =>
      match t with
      | [] => false
      | x :: tr =>
        match reClassMatch body icase x with
        | some true => reMatch icase as tr
        | _ => false
    | .anyStar => anyAux icase as t
    | .nonSlashStar => nsAux icase as t
    | .preAnyDir => reMatch icase as t || preAux icase as t
    | .tailAnyDir =>
      reMatch icase as t ||
        (match t with
         | '/' :: tr => anyAux icase as tr
         | _ => false)
termination_by as t => 2 * (as.length + t.length)
decreasing_by
  all_goals first
    | omega
    | (simp only [List.length_cons]; omega)

/-- The suffix search for `.*` followed by `as`: try `as` here, else drop
one character. -/
def anyAux (icase : Bool) : List RAtom → List Char → Bool
  | as, t =>
    reMatch icase as t ||
      (match t with
       | [] => false
       | _ :: tr => anyAux icase as tr)
termination_by as t => 2 * (as.length + t.length) + 1
decreasing_by
  all_goals first
    | omega
    | (simp only [List.length_cons]; omega)

/-- The suffix search for `[^/]*` followed by `as`: like `anyAux` but a
`/` stops the search. -/
def nsAux (icase : Bool) : List RAtom → List Char → Bool
  | as, t =>
    reMatch icase as t ||
      (match t with
       | [] => false
       | x :: tr => if x = '/' then false else nsAux icase as tr)
termination_by as t => 2 * (as.length + t.length) + 1
decreasing_by
  all_goals first
    | omega
    | (simp only [List.length_cons]; omega)

/-- The search for `.*/` followed by `as` (the non-empty alternative of
`(?:.*/)?`): some prefix ending in `/` is consumed. -/
def preAux (icase : Bool) : List RAtom → List Char → Bool
  | as, t =>
    match t with
    | [] => false
    | x :: tr => ((if x = '/' then reMatch icase as tr else false) || preAux icase as tr)
termination_by as t => 2 * (as.length + t.length) + 1
decreasing_by
  all_goals first
    | omega
    | (simp only [List.length_cons]; omega)

end

/-- Split a character list at the first `]`, returning the parts before
and after it (the scan `while j < len(component) and component[j] != ']'`
of `translate_component`); `none` when there is no `]`. -/
def splitRB : List Char → Option (List Char × List Char)
  | [] => none
  | c :: r =>
    if c = ']' then some ([], r)
    else (splitRB r).map (fun pr => (c :: pr.1, pr.2))

theorem splitRB_length : ∀ l before after, splitRB l = some (before, after) →
    after.length < l.length := by
  intro l
  induction l with
  | nil => intro b a h; simp [splitRB] at h
  | cons c rest ih =>
    intro b a h
    rw [splitRB] at h
    by_cases hc : c = ']'
    · rw [if_pos hc] at h
      simp at h
      obtain ⟨-, h2⟩ := h
      subst h2
      simp
    · rw [if_neg hc] at h
      simp only [Option.map_eq_some'] at h
      obtain ⟨⟨b2, a2⟩, hsp, h2⟩ := h
      obtain ⟨-, h2⟩ := Prod.mk.injEq .. ▸ h2
      have := ih b2 a2 hsp
      rw [← h2]
      simp
      omega

/-- Termination size of a `splitRB` result inside `translateComponent`:
`r2` is the fallback scan point when no `]` exists. -/
def tcSize (o : Option (List Char × List Char)) (r2 : List Char) : Nat :=
  match o with
  | some p => 2 * p.2.length + 2
  | none => 2 * r2.length + 4

theorem mTcCall1 (r2 : List Char) (n1 c : Char) :
    tcSize (splitRB r2) r2 < 2 * (c :: n1 :: r2).length + 1 := by
  rcases h : splitRB r2 with _ | ⟨before, after⟩
  · simp [tcSize]
    omega
  · have := splitRB_length _ _ _ h
    simp [tcSize]
    omega

theorem mTcCall2 (r2 : List Char) (n1 c : Char) :
    tcSize (splitRB (n1 :: r2)) r2 < 2 * (c :: n1 :: r2).length + 1 := by
  rcases h : splitRB (n1 :: r2) with _ | ⟨before, after⟩
  · simp [tcSize]
    omega
  · have := splitRB_length _ _ _ h
    simp [tcSize] at *
    omega

mutual

/-- `translate_component`: translate one `/`-free component of a pattern
into regex fragments.  `\X` escapes the next character (a trailing `\`
escapes itself via `re.escape`), `*` becomes `[^/]*`, `?` becomes
`[^/]`, a bracket expression with an optional leading `!`/`^` becomes a
character class (the negation marker rewritten to `^`), an unterminated
`[` becomes a literal `[` (scanning then continues after it), and any
other character is a literal.  Unlike the engine's `bracketScan`, the
`]` scan here does not treat `[:name:]` tokens as opaque. -/
def translateComponent : List Char → List RAtom
  | [] => []
  | c :: rest =>
    if c = '\\' then
      match rest with
      | [] => [RAtom.lit '\\']
      | e :: r2 => RAtom.lit e :: translateComponent r2
    else if c = '*' then RAtom.nonSlashStar :: translateComponent rest
    else if c = '?' then RAtom.nonSlashOne :: translateComponent rest
    else if c = '[' then
      match rest with
      | [] => RAtom.lit '[' :: translateComponent []
      | n1 :: r2 =>
        if n1 = '!' ∨ n1 = '^' then tcCont (splitRB r2) true n1 r2
        else tcCont (splitRB (n1 :: r2)) false n1 r2
    else RAtom.lit c :: translateComponent rest
termination_by l => 2 * l.length + 1
decreasing_by
  · simp only [List.length_cons]
    omega
  · simp only [List.length_cons]
    omega
  · simp only [List.length_cons]
    omega
  · simp only [List.length_cons]
    omega
  · exact mTcCall1 _ _ _
  · exact mTcCall2 _ _ _
  · simp only [List.length_cons]
    omega

/-- Continuation of the `[` branch of `translateComponent` on the scan
result: a found `]` yields a character class (with `^` prepended for a
negated one), an unterminated `[` becomes a literal `[` and scanning
resumes right after it. -/
def tcCont : (o : Option (List Char × List Char)) → Bool → Char → List Char → List RAtom
  | some (before, after), neg, _, _ =>
    RAtom.cls (if neg then '^' :: before else before) :: translateComponent after
  | none, _, n1, r2 => RAtom.lit '[' :: translateComponent (n1 :: r2)
termination_by o neg n1 r2 => tcSize o r2
decreasing_by
  · simp only [tcSize]
    omega
  · simp only [tcSize, List.length_cons]
    omega

end

/-- Python's `pattern.split('/')` on a character list. -/
def splitSlash : List Char → List (List Char)
  | [] => [[]]
  | c :: r =>
    if c = '/' then [] :: splitSlash r
    else
      match splitSlash r with
      | s :: ss => (c :: s) :: ss
      | [] => [[c]]

/-- The component loop of `compile_regex`: each component contributes its
fragments, a `**` component contributes `.*`, and every component except
the first is preceded by a literal `/` (a `**` component never is,
matching the source, which appends `".*"` without the separator). -/
def buildAtoms : List (List Char) → Bool → List RAtom
  | [], _ => []
  | comp :: rest, first =>
    (if comp = "**".data then [RAtom.anyStar]
     else (if first then [] else [RAtom.lit '/']) ++ translateComponent comp) ++
      buildAtoms rest false

/-- Whether a character-class body would compile under `re` (`none` from
the set parser models `re.error`). -/
def classBodyOk (body : List Char) : Bool :=
  match body with
  | '^' :: rest => (parseSetItems rest).isSome
  | _ => (parseSetItems body).isSome

/-- Whether one fragment is a valid piece of regex; only character
classes can be invalid. -/
def atomOk : RAtom → Bool
  | .cls body => classBodyOk body
  | _ => true

/-- `compile_regex`: split the processed pattern on `/` (dropping empty
components), choose the `^/` or `^(?:.*/)?` anchor by whether the
pattern starts with `/`, translate the components, and append `$` for
directory-only rules or `(?:/.*)?$` otherwise.  The result is `none`
exactly when `re.compile` would raise (`self.regex = None`), which
happens iff some generated character class is malformed. -/
def compileRegex (pattern : List Char) (dirOnly : Bool) : Option (List RAtom) :=
  let comps := (splitSlash pattern).filter (fun comp => comp ≠ [])
  let atoms :=
    (if pattern.head? = some '/' then [RAtom.lit '/'] else [RAtom.preAnyDir]) ++
      buildAtoms comps true ++
      (if dirOnly then [] else [RAtom.tailAnyDir])
  if atoms.all atomOk then some atoms else none

/-! ### `GitIgnorePattern` -/

/-- Python `str.lower()`, modelled by ASCII lowering; exact on ASCII
input. -/
def pyLower (l : List Char) : List Char := l.map Char.toLower

/-- Python `str.rstrip('/')`: drop every trailing `/`. -/
def rstripSlashes (l : List Char) : List Char :=
  (l.reverse.dropWhile (fun c => c = '/')).reverse

/-- The compiled representation of one ignore rule, with the fields of
the Python class `GitIgnorePattern`. -/
structure GitIgnorePattern where
  original : List Char
  source_dir : List Char
  casefold : Bool
  negation : Bool
  dir_only : Bool
  raw_pattern : List Char
  regex : Option (List RAtom)
deriving DecidableEq

/-- `GitIgnorePattern.__init__`: strip a leading `!` (negation), strip
trailing `/` (directory-only), lower-case if case insensitive, store the
processed pattern and compile its regex (which the slash-free matching
path never consults). -/
def GitIgnorePattern.build (pattern source_dir : List Char) (casefold : Bool) :
    GitIgnorePattern :=
  let negation := pattern.head? == some '!'
  let p1 := if negation then pattern.tail else pattern
  let dir_only := p1.getLast? == some '/'
  let p2 := if dir_only then rstripSlashes p1 else p1
  let p3 := if casefold then pyLower p2 else p2
  { original := pattern
    source_dir := source_dir
    casefold := casefold
    negation := negation
    dir_only := dir_only
    raw_pattern := p3
    regex := compileRegex p3 dir_only }

/-- `os.path.basename` for `/`-separated paths: the part after the last
`/`. -/
def pyBasename (l : List Char) : List Char :=
  (l.reverse.takeWhile (fun c => c != '/')).reverse

/-- `GitIgnorePattern.hits`: a directory-only rule never matches a
non-directory; a slash-free pattern is matched against the basename by
the wildcard engine with `WM_UNICODE | WM_PATHNAME` (plus `WM_CASEFOLD`
and a lowered basename when case insensitive); a slash-containing
pattern is matched by the compiled regex against `'/' + path` (`False`
when compilation failed). -/
def GitIgnorePattern.hits (pat : GitIgnorePattern) (path : List Char) (isDir : Bool) : Bool :=
  if pat.dir_only ∧ ¬ isDir then false
  else if ¬ pat.raw_pattern.contains '/' then
    let base := pyBasename path
    let base2 := if pat.casefold then pyLower base else base
    let flags := WM_UNICODE ||| WM_PATHNAME ||| (if pat.casefold then WM_CASEFOLD else 0)
    wildmatch pat.raw_pattern base2 flags == WM_MATCH
  else
    match pat.regex with
    | none => false
    | some atoms => reMatch pat.casefold atoms ('/' :: path)

/-- `GitIgnorePattern.match`: the hit result, masked by the negation flag
(negation itself is acted on by the scanner, not here). -/
def GitIgnorePattern.matchFn (pat : GitIgnorePattern) (path : List Char) (isDir : Bool) : Bool :=
  pat.hits path isDir && !pat.negation

/-! ### `GitIgnoreScanner` -/

/-- The path normalization of `should_ignore`:
`path.replace(os.sep, '/').replace('\\', '/')` with `os.sep = '/'`. -/
def normalizeBS (l : List Char) : List Char :=
  l.map (fun c => if c = '\\' then '/' else c)

/-- The scope adjustment of the `should_ignore` loop body: for a rule
from a subdirectory, strip `source_dir + '/'` from the path, map a path
equal to the source directory to the empty path, and skip the rule
(`none`) when the path is outside the scope. -/
def scopeAdjust (pat : GitIgnorePattern) (np : List Char) : Option (List Char) :=
  if pat.source_dir = [] then some np
  else
    let pre := normalizeBS pat.source_dir ++ ['/']
    if pre.isPrefixOf np then some (np.drop pre.length)
    else if np = normalizeBS pat.source_dir then some []
    else none

/-- One iteration of the `should_ignore` loop: an applicable, hitting
rule overwrites the running decision with `not negation`. -/
def stepRule (np : List Char) (isDir : Bool) (acc : Option Bool) (pat : GitIgnorePattern) :
    Option Bool :=
  match scopeAdjust pat np with
  | none => acc
  | some mp => if pat.hits mp isDir then some (!pat.negation) else acc

/-- `GitIgnoreScanner.should_ignore` as a function of the loaded rule
list: fold the rules in order and return the final decision, `false`
when no rule matched. -/
def shouldIgnore (patterns : List GitIgnorePattern) (path : List Char) (isDir : Bool) : Bool :=
  (patterns.foldl (stepRule (normalizeBS path) isDir) none).getD false

/-- Whether one rule applies to and hits a query (the condition under
which the `should_ignore` loop overwrites its decision). -/
def matchesQuery (np : List Char) (isDir : Bool) (pat : GitIgnorePattern) : Bool :=
  match scopeAdjust pat np with
  | none => false
  | some mp => pat.hits mp isDir

/-- The sort key of `load_patterns`:
`len(rel_dir.split('/')) if rel_dir else 0`. -/
def depthKey (sd : List Char) : Nat :=
  if sd = [] then 0 else (splitSlash sd).length

/-- Stable insertion of one collected `(rel_dir, line)` pair into an
already sorted list, by ascending `depthKey` of the directory. -/
def insertByDepth (x : List Char × List Char) :
    List (List Char × List Char) → List (List Char × List Char)
  | [] => [x]
  | y :: ys =>
    if depthKey x.1 ≤ depthKey y.1 then x :: y :: ys
    else y :: insertByDepth x ys

/-- The sort `collected.sort(key=..., reverse=False)` of `load_patterns`:
Python's sort is stable, and a stable sort by a key is unique as a
function, so it equals this stable insertion sort. -/
def sortByDepth : List (List Char × List Char) → List (List Char × List Char)
  | [] => []
  | x :: xs => insertByDepth x (sortByDepth xs)

/-- The pure tail of `GitIgnoreScanner.load_patterns`: sort the collected
`(rel_dir, line)` pairs by ascending directory depth and compile each
into a `GitIgnorePattern`. -/
def loadPatterns (collected : List (List Char × List Char)) (casefold : Bool) :
    List GitIgnorePattern :=
  (sortByDepth collected).map (fun pr => GitIgnorePattern.build pr.2 pr.1 casefold)

/-! ### String-level wrappers, for readable statements -/

/-- `wildmatch` on strings. -/
def wildmatchS (pattern text : String) (flags : Nat) : Int :=
  wildmatch pattern.data text.data flags

/-- `GitIgnorePattern` construction from strings. -/
def buildS (pattern source_dir : String) (casefold : Bool) : GitIgnorePattern :=
  GitIgnorePattern.build pattern.data source_dir.data casefold

/-- `should_ignore` on a string path. -/
def shouldIgnoreS (patterns : List GitIgnorePattern) (path : String) (isDir : Bool) : Bool :=
  shouldIgnore patterns path.data isDir


/-! ### Supporting lemmas for the resolver theorems -/

set_option maxRecDepth 8000

theorem stepRule_of_match {np : List Char} {d : Bool} {acc : Option Bool}
    {pat : GitIgnorePattern} (h : matchesQuery np d pat = true) :
    stepRule np d acc pat = some (!pat.negation) := by
  unfold stepRule
  unfold matchesQuery at h
  rcases hs : scopeAdjust pat np with _ | mp <;> simp_all

theorem stepRule_of_not_match {np : List Char} {d : Bool} {acc : Option Bool}
    {pat : GitIgnorePattern} (h : matchesQuery np d pat = false) :
    stepRule np d acc pat = acc := by
  unfold stepRule
  unfold matchesQuery at h
  rcases hs : scopeAdjust pat np with _ | mp <;> simp_all

theorem getLast?_cons_of_ne_nil {α : Type} (a : α) {l : List α} (h : l ≠ []) :
    (a :: l).getLast? = l.getLast? := by
  rcases l with _ | ⟨b, l2⟩
  · exact absurd rfl h
  · rfl

theorem foldl_stepRule_last (np : List Char) (d : Bool) :
    ∀ (ps : List GitIgnorePattern) (acc : Option Bool),
      ps.foldl (stepRule np d) acc =
        (match (ps.filter (matchesQuery np d)).getLast? with
         | some pat => some (!pat.negation)
         | none => acc) := by
  intro ps
  induction ps with
  | nil => intro acc; simp
  | cons p rest ih =>
    intro acc
    rw [List.foldl_cons, ih]
    by_cases hm : matchesQuery np d p
    · rw [List.filter_cons_of_pos hm]
      rcases hlast : (rest.filter (matchesQuery np d)).getLast? with _ | q
      · have hnil : rest.filter (matchesQuery np d) = [] :=
          List.getLast?_eq_none_iff.mp hlast
        rw [hnil]
        simp [stepRule_of_match hm]
      · have hne : rest.filter (matchesQuery np d) ≠ [] := by
          intro hc
          rw [hc] at hlast
          simp at hlast
        rw [getLast?_cons_of_ne_nil _ hne, hlast]
    · rw [List.filter_cons_of_neg (by simpa using hm)]
      rw [stepRule_of_not_match (by simpa using hm)]

/-- Claim C1: `should_ignore` iterates the rules in order, each matching
rule overwrites the running decision with `not negated` so that the last
matching rule wins, and the result is `false` when no rule matches; in
particular `["*.log", "!keep.log"]` ignores `a.log` and not `keep.log`. -/
theorem C1_last_match_wins :
    (∀ (ps : List GitIgnorePattern) (path : List Char) (d : Bool),
      shouldIgnore ps path d =
        (match (ps.filter (matchesQuery (normalizeBS path) d)).getLast? with
         | some pat => !pat.negation
         | none => false)) ∧
    shouldIgnoreS [buildS "*.log" "" false, buildS "!keep.log" "" false] "a.log" false = true ∧
    shouldIgnoreS [buildS "*.log" "" false, buildS "!keep.log" "" false] "keep.log" false
      = false := by
  refine ⟨?_, ?_, ?_⟩
  · intro ps path d
    unfold shouldIgnore
    rw [foldl_stepRule_last]
    rcases (ps.filter (matchesQuery (normalizeBS path) d)).getLast? with _ | q <;> simp
  · simp [wildmatchS, wildmatch, dowild, doLoop, doBracket, starLoop, bracketMatched, bracketScan,
    splitCB, WM_CASEFOLD, WM_PATHNAME, WM_UNICODE, WM_MATCH, WM_NOMATCH, WM_ABORT_ALL,
    WM_ABORT_TO_STARSTAR, expandPosix, epCont, posixExpand, posixUniExp, posixAsciiExp,
    posixTokenName, hasFlag_eval, reMatch, anyAux, nsAux, preAux, translateComponent, tcCont,
    splitRB, splitSlash, buildAtoms, compileRegex, atomOk, classBodyOk, parseSetItems, lexSet,
    parseToks, tokCode, codeItem, classEscChar, hexVal, membSet, itemMatch, reClassMatch,
    lowerAZ, GitIgnorePattern.build, GitIgnorePattern.hits, GitIgnorePattern.matchFn, buildS,
    pyLower, rstripSlashes, pyBasename, normalizeBS, scopeAdjust, stepRule, shouldIgnore,
    shouldIgnoreS, matchesQuery, pyIsDigit, pyIsWord, pyIsSpace, posix_alpha, posix_cntrl,
    posix_lower, posix_print, posix_punct, posix_upper, punctChars]
  · simp [wildmatchS, wildmatch, dowild, doLoop, doBracket, starLoop, bracketMatched, bracketScan,
    splitCB, WM_CASEFOLD, WM_PATHNAME, WM_UNICODE, WM_MATCH, WM_NOMATCH, WM_ABORT_ALL,
    WM_ABORT_TO_STARSTAR, expandPosix, epCont, posixExpand, posixUniExp, posixAsciiExp,
    posixTokenName, hasFlag_eval, reMatch, anyAux, nsAux, preAux, translateComponent, tcCont,
    splitRB, splitSlash, buildAtoms, compileRegex, atomOk, classBodyOk, parseSetItems, lexSet,
    parseToks, tokCode, codeItem, classEscChar, hexVal, membSet, itemMatch, reClassMatch,
    lowerAZ, GitIgnorePattern.build, GitIgnorePattern.hits, GitIgnorePattern.matchFn, buildS,
    pyLower, rstripSlashes, pyBasename, normalizeBS, scopeAdjust, stepRule, shouldIgnore,
    shouldIgnoreS, matchesQuery, pyIsDigit, pyIsWord, pyIsSpace, posix_alpha, posix_cntrl,
    posix_lower, posix_print, posix_punct, posix_upper, punctChars]

/-- Claim C8: a directory-only rule never matches a non-directory
candidate, and the rule `build/` matches the directory `build` but
neither the file `build` nor the directory member `build/file`. -/
theorem C8_directory_only :
    (∀ (pat : GitIgnorePattern) (path : List Char),
      pat.dir_only = true → pat.hits path false = false) ∧
    (buildS "build/" "" false).hits "build".data true = true ∧
    (buildS "build/" "" false).hits "build".data false = false ∧
    (buildS "build/" "" false).hits "build/file".data true = false := by
  refine ⟨?_, ?_, ?_, ?_⟩
  · intro pat path h
    unfold GitIgnorePattern.hits
    simp [h]
  · simp [wildmatchS, wildmatch, dowild, doLoop, doBracket, starLoop, bracketMatched, bracketScan,
    splitCB, WM_CASEFOLD, WM_PATHNAME, WM_UNICODE, WM_MATCH, WM_NOMATCH, WM_ABORT_ALL,
    WM_ABORT_TO_STARSTAR, expandPosix, epCont, posixExpand, posixUniExp, posixAsciiExp,
    posixTokenName, hasFlag_eval, reMatch, anyAux, nsAux, preAux, translateComponent, tcCont,
    splitRB, splitSlash, buildAtoms, compileRegex, atomOk, classBodyOk, parseSetItems, lexSet,
    parseToks, tokCode, codeItem, classEscChar, hexVal, membSet, itemMatch, reClassMatch,
    lowerAZ, GitIgnorePattern.build, GitIgnorePattern.hits, GitIgnorePattern.matchFn, buildS,
    pyLower, rstripSlashes, pyBasename, normalizeBS, scopeAdjust, stepRule, shouldIgnore,
    shouldIgnoreS, matchesQuery, pyIsDigit, pyIsWord, pyIsSpace, posix_alpha, posix_cntrl,
    posix_lower, posix_print, posix_punct, posix_upper, punctChars]
  · simp [wildmatchS, wildmatch, dowild, doLoop, doBracket, starLoop, bracketMatched, bracketScan,
    splitCB, WM_CASEFOLD, WM_PATHNAME, WM_UNICODE, WM_MATCH, WM_NOMATCH, WM_ABORT_ALL,
    WM_ABORT_TO_STARSTAR, expandPosix, epCont, posixExpand, posixUniExp, posixAsciiExp,
    posixTokenName, hasFlag_eval, reMatch, anyAux, nsAux, preAux, translateComponent, tcCont,
    splitRB, splitSlash, buildAtoms, compileRegex, atomOk, classBodyOk, parseSetItems, lexSet,
    parseToks, tokCode, codeItem, classEscChar, hexVal, membSet, itemMatch, reClassMatch,
    lowerAZ, GitIgnorePattern.build, GitIgnorePattern.hits, GitIgnorePattern.matchFn, buildS,
    pyLower, rstripSlashes, pyBasename, normalizeBS, scopeAdjust, stepRule, shouldIgnore,
    shouldIgnoreS, matchesQuery, pyIsDigit, pyIsWord, pyIsSpace, posix_alpha, posix_cntrl,
    posix_lower, posix_print, posix_punct, posix_upper, punctChars]
  · simp [wildmatchS, wildmatch, dowild, doLoop, doBracket, starLoop, bracketMatched, bracketScan,
    splitCB, WM_CASEFOLD, WM_PATHNAME, WM_UNICODE, WM_MATCH, WM_NOMATCH, WM_ABORT_ALL,
    WM_ABORT_TO_STARSTAR, expandPosix, epCont, posixExpand, posixUniExp, posixAsciiExp,
    posixTokenName, hasFlag_eval, reMatch, anyAux, nsAux, preAux, translateComponent, tcCont,
    splitRB, splitSlash, buildAtoms, compileRegex, atomOk, classBodyOk, parseSetItems, lexSet,
    parseToks, tokCode, codeItem, classEscChar, hexVal, membSet, itemMatch, reClassMatch,
    lowerAZ, GitIgnorePattern.build, GitIgnorePattern.hits, GitIgnorePattern.matchFn, buildS,
    pyLower, rstripSlashes, pyBasename, normalizeBS, scopeAdjust, stepRule, shouldIgnore,
    shouldIgnoreS, matchesQuery, pyIsDigit, pyIsWord, pyIsSpace, posix_alpha, posix_cntrl,
    posix_lower, posix_print, posix_punct, posix_upper, punctChars]

theorem C8_directory_only_witness :
    (buildS "build/" "" false).hits "zzz".data false = false :=
  C8_directory_only.1 (buildS "build/" "" false) "zzz".data (by simp [wildmatchS, wildmatch, dowild, doLoop, doBracket, starLoop, bracketMatched, bracketScan,
    splitCB, WM_CASEFOLD, WM_PATHNAME, WM_UNICODE, WM_MATCH, WM_NOMATCH, WM_ABORT_ALL,
    WM_ABORT_TO_STARSTAR, expandPosix, epCont, posixExpand, posixUniExp, posixAsciiExp,
    posixTokenName, hasFlag_eval, reMatch, anyAux, nsAux, preAux, translateComponent, tcCont,
    splitRB, splitSlash, buildAtoms, compileRegex, atomOk, classBodyOk, parseSetItems, lexSet,
    parseToks, tokCode, codeItem, classEscChar, hexVal, membSet, itemMatch, reClassMatch,
    lowerAZ, GitIgnorePattern.build, GitIgnorePattern.hits, GitIgnorePattern.matchFn, buildS,
    pyLower, rstripSlashes, pyBasename, normalizeBS, scopeAdjust, stepRule, shouldIgnore,
    shouldIgnoreS, matchesQuery, pyIsDigit, pyIsWord, pyIsSpace, posix_alpha, posix_cntrl,
    posix_lower, posix_print, posix_punct, posix_upper, punctChars])

/-- Claim C10: `GitIgnorePattern.match` returns the conjunction of
`hits` and `not negation`, so for a rule built from a pattern beginning
with `!` it returns `false` for every query; negation is acted on only
by the scanner loop. -/
theorem C10_match_negation_masked :
    (∀ (s sd : List Char) (cf : Bool) (path : List Char) (d : Bool),
      s.head? = some '!' →
      (GitIgnorePattern.build s sd cf).matchFn path d = false) ∧
    (∀ (pat : GitIgnorePattern) (path : List Char) (d : Bool),
      pat.matchFn path d = (pat.hits path d && !pat.negation)) := by
  constructor
  · intro s sd cf path d h
    unfold GitIgnorePattern.matchFn
    have hneg : (GitIgnorePattern.build s sd cf).negation = true := by
      unfold GitIgnorePattern.build
      simp [h]
    rw [hneg]
    simp
  · intro pat path d
    rfl

theorem C10_match_negation_masked_witness :
    (GitIgnorePattern.build "!keep.log".data "".data false).matchFn "keep.log".data false
      = false :=
  C10_match_negation_masked.1 "!keep.log".data "".data false "keep.log".data false (by decide)

/-- Claim C9: the public wrapper returns only `WM_MATCH` or
`WM_NOMATCH` for every input, and a slash-containing rule whose regex
failed to compile (`regex = none`) matches no path at all; compilation
and matching are total functions in this model. -/
theorem C9_malformed_never_fatal :
    (∀ (p t : List Char) (f : Nat),
      wildmatch p t f = WM_MATCH ∨ wildmatch p t f = WM_NOMATCH) ∧
    (∀ (pat : GitIgnorePattern) (path : List Char) (d : Bool),
      pat.regex = none → pat.raw_pattern.contains '/' = true →
      pat.hits path d = false) := by
  constructor
  · intro p t f
    unfold wildmatch
    by_cases h : dowild p t f = WM_MATCH <;> simp [h]
  · intro pat path d hregex hslash
    unfold GitIgnorePattern.hits
    rw [hregex, hslash]
    simp

theorem C9_malformed_never_fatal_witness :
    (buildS "a/[!]" "" false).hits "zz".data false = false :=
  C9_malformed_never_fatal.2 (buildS "a/[!]" "" false) "zz".data false
    (by simp [wildmatchS, wildmatch, dowild, doLoop, doBracket, starLoop, bracketMatched, bracketScan,
    splitCB, WM_CASEFOLD, WM_PATHNAME, WM_UNICODE, WM_MATCH, WM_NOMATCH, WM_ABORT_ALL,
    WM_ABORT_TO_STARSTAR, expandPosix, epCont, posixExpand, posixUniExp, posixAsciiExp,
    posixTokenName, hasFlag_eval, reMatch, anyAux, nsAux, preAux, translateComponent, tcCont,
    splitRB, splitSlash, buildAtoms, compileRegex, atomOk, classBodyOk, parseSetItems, lexSet,
    parseToks, tokCode, codeItem, classEscChar, hexVal, membSet, itemMatch, reClassMatch,
    lowerAZ, GitIgnorePattern.build, GitIgnorePattern.hits, GitIgnorePattern.matchFn, buildS,
    pyLower, rstripSlashes, pyBasename, normalizeBS, scopeAdjust, stepRule, shouldIgnore,
    shouldIgnoreS, matchesQuery, pyIsDigit, pyIsWord, pyIsSpace, posix_alpha, posix_cntrl,
    posix_lower, posix_print, posix_punct, posix_upper, punctChars])
    (by simp [wildmatchS, wildmatch, dowild, doLoop, doBracket, starLoop, bracketMatched, bracketScan,
    splitCB, WM_CASEFOLD, WM_PATHNAME, WM_UNICODE, WM_MATCH, WM_NOMATCH, WM_ABORT_ALL,
    WM_ABORT_TO_STARSTAR, expandPosix, epCont, posixExpand, posixUniExp, posixAsciiExp,
    posixTokenName, hasFlag_eval, reMatch, anyAux, nsAux, preAux, translateComponent, tcCont,
    splitRB, splitSlash, buildAtoms, compileRegex, atomOk, classBodyOk, parseSetItems, lexSet,
    parseToks, tokCode, codeItem, classEscChar, hexVal, membSet, itemMatch, reClassMatch,
    lowerAZ, GitIgnorePattern.build, GitIgnorePattern.hits, GitIgnorePattern.matchFn, buildS,
    pyLower, rstripSlashes, pyBasename, normalizeBS, scopeAdjust, stepRule, shouldIgnore,
    shouldIgnoreS, matchesQuery, pyIsDigit, pyIsWord, pyIsSpace, posix_alpha, posix_cntrl,
    posix_lower, posix_print, posix_punct, posix_upper, punctChars])


/-- Claim C2: a rule with a non-empty scope directory affects a query
only when the path lies under that scope; removing such a rule from any
position of the rule list leaves the answer on any out-of-scope path
unchanged, an in-scope path has the scope prefix stripped before
matching, and the rule `*.tmp` at scope `sub` ignores `sub/a.tmp` but
not `other/a.tmp`. -/
theorem C2_scope_isolation :
    (∀ (ps1 ps2 : List GitIgnorePattern) (pat : GitIgnorePattern) (path : List Char) (d : Bool),
      pat.source_dir ≠ [] →
      (normalizeBS pat.source_dir ++ ['/']).isPrefixOf (normalizeBS path) = false →
      normalizeBS path ≠ normalizeBS pat.source_dir →
      shouldIgnore (ps1 ++ pat :: ps2) path d = shouldIgnore (ps1 ++ ps2) path d) ∧
    (∀ (pat : GitIgnorePattern) (rest : List Char),
      pat.source_dir ≠ [] →
      scopeAdjust pat (normalizeBS pat.source_dir ++ '/' :: rest) = some rest) ∧
    shouldIgnoreS [buildS "*.tmp" "sub" false] "sub/a.tmp" false = true ∧
    shouldIgnoreS [buildS "*.tmp" "sub" false] "other/a.tmp" false = false := by
  refine ⟨?_, ?_, ?_, ?_⟩
  · intro ps1 ps2 pat path d hsd hpre hne
    unfold shouldIgnore
    rw [List.foldl_append, List.foldl_append, List.foldl_cons]
    have hadj : scopeAdjust pat (normalizeBS path) = none := by
      unfold scopeAdjust
      rw [if_neg hsd]
      simp [hpre, hne]
    unfold stepRule
    rw [hadj]
  · intro pat rest hsd
    unfold scopeAdjust
    rw [if_neg hsd]
    have hsplit : normalizeBS pat.source_dir ++ '/' :: rest =
        (normalizeBS pat.source_dir ++ ['/']) ++ rest := by simp
    rw [hsplit]
    have hp : (normalizeBS pat.source_dir ++ ['/']).isPrefixOf
        ((normalizeBS pat.source_dir ++ ['/']) ++ rest) = true := by
      simp [List.isPrefixOf_iff_prefix]
    simp only [hp, if_true, List.drop_left]
  · simp [wildmatchS, wildmatch, dowild, doLoop, doBracket, starLoop, bracketMatched, bracketScan,
    splitCB, WM_CASEFOLD, WM_PATHNAME, WM_UNICODE, WM_MATCH, WM_NOMATCH, WM_ABORT_ALL,
    WM_ABORT_TO_STARSTAR, expandPosix, epCont, posixExpand, posixUniExp, posixAsciiExp,
    posixTokenName, hasFlag_eval, reMatch, anyAux, nsAux, preAux, translateComponent, tcCont,
    splitRB, splitSlash, buildAtoms, compileRegex, atomOk, classBodyOk, parseSetItems, lexSet,
    parseToks, tokCode, codeItem, classEscChar, hexVal, membSet, itemMatch, reClassMatch,
    lowerAZ, GitIgnorePattern.build, GitIgnorePattern.hits, GitIgnorePattern.matchFn, buildS,
    pyLower, rstripSlashes, pyBasename, normalizeBS, scopeAdjust, stepRule, shouldIgnore,
    shouldIgnoreS, matchesQuery, pyIsDigit, pyIsWord, pyIsSpace, posix_alpha, posix_cntrl,
    posix_lower, posix_print, posix_punct, posix_upper, punctChars]
  · simp [wildmatchS, wildmatch, dowild, doLoop, doBracket, starLoop, bracketMatched, bracketScan,
    splitCB, WM_CASEFOLD, WM_PATHNAME, WM_UNICODE, WM_MATCH, WM_NOMATCH, WM_ABORT_ALL,
    WM_ABORT_TO_STARSTAR, expandPosix, epCont, posixExpand, posixUniExp, posixAsciiExp,
    posixTokenName, hasFlag_eval, reMatch, anyAux, nsAux, preAux, translateComponent, tcCont,
    splitRB, splitSlash, buildAtoms, compileRegex, atomOk, classBodyOk, parseSetItems, lexSet,
    parseToks, tokCode, codeItem, classEscChar, hexVal, membSet, itemMatch, reClassMatch,
    lowerAZ, GitIgnorePattern.build, GitIgnorePattern.hits, GitIgnorePattern.matchFn, buildS,
    pyLower, rstripSlashes, pyBasename, normalizeBS, scopeAdjust, stepRule, shouldIgnore,
    shouldIgnoreS, matchesQuery, pyIsDigit, pyIsWord, pyIsSpace, posix_alpha, posix_cntrl,
    posix_lower, posix_print, posix_punct, posix_upper, punctChars]

theorem C2_scope_isolation_witness :
    shouldIgnore ([] ++ buildS "*.tmp" "sub" false :: []) "x".data false
      = shouldIgnore ([] ++ []) "x".data false :=
  C2_scope_isolation.1 [] [] (buildS "*.tmp" "sub" false) "x".data false
    (by decide) (by decide) (by decide)

/-! ### Supporting lemmas for the load-order theorem -/

theorem build_source_dir (p sd : List Char) (cf : Bool) :
    (GitIgnorePattern.build p sd cf).source_dir = sd := rfl

theorem chain'_insertByDepth (x : List Char × List Char) :
    ∀ ys : List (List Char × List Char),
      List.Chain' (fun a b => depthKey a.1 ≤ depthKey b.1) ys →
      List.Chain' (fun a b => depthKey a.1 ≤ depthKey b.1) (insertByDepth x ys) := by
  intro ys
  induction ys with
  | nil =>
    intro h
    simp [insertByDepth]
  | cons y ys2 ih =>
    intro h
    by_cases hle : depthKey x.1 ≤ depthKey y.1
    · simp only [insertByDepth, if_pos hle]
      exact List.Chain'.cons hle h
    · simp only [insertByDepth, if_neg hle]
      rcases ys2 with _ | ⟨z, ys3⟩
      · simp only [insertByDepth]
        exact List.chain'_pair.mpr (le_of_not_le hle)
      · by_cases hle2 : depthKey x.1 ≤ depthKey z.1
        · simp only [insertByDepth, if_pos hle2]
          exact List.Chain'.cons (le_of_not_le hle)
            (List.Chain'.cons hle2 (List.chain'_cons.mp h).2)
        · simp only [insertByDepth, if_neg hle2]
          have h3 := ih (List.chain'_cons.mp h).2
          simp only [insertByDepth, if_neg hle2] at h3
          exact List.Chain'.cons (List.chain'_cons.mp h).1 h3

theorem chain'_sortByDepth :
    ∀ l : List (List Char × List Char),
      List.Chain' (fun a b => depthKey a.1 ≤ depthKey b.1) (sortByDepth l) := by
  intro l
  induction l with
  | nil => simp [sortByDepth]
  | cons x xs ih => exact chain'_insertByDepth x _ ih

/-- Claim C7: after loading, the rule sequence is ordered ascending by
the depth (`/`-count based key) of each rule's scope directory, so
deeper rules come later and can override shallower ones. -/
theorem C7_rules_sorted_by_depth :
    ∀ (collected : List (List Char × List Char)) (cf : Bool),
      List.Chain' (fun a b => depthKey a.source_dir ≤ depthKey b.source_dir)
        (loadPatterns collected cf) := by
  intro collected cf
  unfold loadPatterns
  rw [List.chain'_map]
  have h := chain'_sortByDepth collected
  exact h.imp (fun a b hab => by simpa [build_source_dir] using hab)


/-- Claim C3 (counterexample): the compiled rule `a/**/b` matches
`ax/b`, although the claim states that a lone `**` component may absorb
only whole `/`-delimited segments and therefore must not match it. -/
theorem C3_counterexample :
    (buildS "a/**/b" "" false).hits "ax/b".data false = true := by
  simp [wildmatchS, wildmatch, dowild, doLoop, doBracket, starLoop, bracketMatched, bracketScan,
    splitCB, WM_CASEFOLD, WM_PATHNAME, WM_UNICODE, WM_MATCH, WM_NOMATCH, WM_ABORT_ALL,
    WM_ABORT_TO_STARSTAR, expandPosix, epCont, posixExpand, posixUniExp, posixAsciiExp,
    posixTokenName, hasFlag_eval, reMatch, anyAux, nsAux, preAux, translateComponent, tcCont,
    splitRB, splitSlash, buildAtoms, compileRegex, atomOk, classBodyOk, parseSetItems, lexSet,
    parseToks, tokCode, codeItem, classEscChar, hexVal, membSet, itemMatch, reClassMatch,
    lowerAZ, GitIgnorePattern.build, GitIgnorePattern.hits, GitIgnorePattern.matchFn, buildS,
    pyLower, rstripSlashes, pyBasename, normalizeBS, scopeAdjust, stepRule, shouldIgnore,
    shouldIgnoreS, matchesQuery, pyIsDigit, pyIsWord, pyIsSpace, posix_alpha, posix_cntrl,
    posix_lower, posix_print, posix_punct, posix_upper, punctChars]

/-- Claim C3 (amended): a lone `**` component of a path rule compiles to
the regex fragment `.*`, which matches any run of characters including
separators and partial segments; `a/**/b` matches `a/b` and `a/x/y/b`,
but also `ax/b`. -/
theorem C3_doublestar_is_dot_star :
    compileRegex "a/**/b".data false =
      some [RAtom.preAnyDir, RAtom.lit 'a', RAtom.anyStar, RAtom.lit '/', RAtom.lit 'b',
        RAtom.tailAnyDir] ∧
    (buildS "a/**/b" "" false).hits "a/b".data false = true ∧
    (buildS "a/**/b" "" false).hits "a/x/y/b".data false = true ∧
    (buildS "a/**/b" "" false).hits "ax/b".data false = true := by
  refine ⟨?_, ?_, ?_, ?_⟩ <;> simp [wildmatchS, wildmatch, dowild, doLoop, doBracket, starLoop, bracketMatched, bracketScan,
    splitCB, WM_CASEFOLD, WM_PATHNAME, WM_UNICODE, WM_MATCH, WM_NOMATCH, WM_ABORT_ALL,
    WM_ABORT_TO_STARSTAR, expandPosix, epCont, posixExpand, posixUniExp, posixAsciiExp,
    posixTokenName, hasFlag_eval, reMatch, anyAux, nsAux, preAux, translateComponent, tcCont,
    splitRB, splitSlash, buildAtoms, compileRegex, atomOk, classBodyOk, parseSetItems, lexSet,
    parseToks, tokCode, codeItem, classEscChar, hexVal, membSet, itemMatch, reClassMatch,
    lowerAZ, GitIgnorePattern.build, GitIgnorePattern.hits, GitIgnorePattern.matchFn, buildS,
    pyLower, rstripSlashes, pyBasename, normalizeBS, scopeAdjust, stepRule, shouldIgnore,
    shouldIgnoreS, matchesQuery, pyIsDigit, pyIsWord, pyIsSpace, posix_alpha, posix_cntrl,
    posix_lower, posix_print, posix_punct, posix_upper, punctChars]

/-- Claim C4 (counterexample): `is_match("**/x", "x", PATHNAME)` is
`false` in this engine, although the claim states it is `true`. -/
theorem C4_counterexample :
    wildmatchS "**/x" "x" WM_PATHNAME = WM_NOMATCH := by
  simp [wildmatchS, wildmatch, dowild, doLoop, doBracket, starLoop, bracketMatched, bracketScan,
    splitCB, WM_CASEFOLD, WM_PATHNAME, WM_UNICODE, WM_MATCH, WM_NOMATCH, WM_ABORT_ALL,
    WM_ABORT_TO_STARSTAR, expandPosix, epCont, posixExpand, posixUniExp, posixAsciiExp,
    posixTokenName, hasFlag_eval, reMatch, anyAux, nsAux, preAux, translateComponent, tcCont,
    splitRB, splitSlash, buildAtoms, compileRegex, atomOk, classBodyOk, parseSetItems, lexSet,
    parseToks, tokCode, codeItem, classEscChar, hexVal, membSet, itemMatch, reClassMatch,
    lowerAZ, GitIgnorePattern.build, GitIgnorePattern.hits, GitIgnorePattern.matchFn, buildS,
    pyLower, rstripSlashes, pyBasename, normalizeBS, scopeAdjust, stepRule, shouldIgnore,
    shouldIgnoreS, matchesQuery, pyIsDigit, pyIsWord, pyIsSpace, posix_alpha, posix_cntrl,
    posix_lower, posix_print, posix_punct, posix_upper, punctChars]

/-- Claim C4 (amended): `dowild` collapses `**` into a single `*`, which
under `PATHNAME` cannot cross a separator; of the claim's inputs only
`a/x` matches, while `x`, `a/b/x` and `ax` do not. -/
theorem C4_doublestar_collapsed :
    wildmatchS "**/x" "x" WM_PATHNAME = WM_NOMATCH ∧
    wildmatchS "**/x" "a/x" WM_PATHNAME = WM_MATCH ∧
    wildmatchS "**/x" "a/b/x" WM_PATHNAME = WM_NOMATCH ∧
    wildmatchS "**/x" "ax" WM_PATHNAME = WM_NOMATCH := by
  refine ⟨?_, ?_, ?_, ?_⟩ <;> simp [wildmatchS, wildmatch, dowild, doLoop, doBracket, starLoop, bracketMatched, bracketScan,
    splitCB, WM_CASEFOLD, WM_PATHNAME, WM_UNICODE, WM_MATCH, WM_NOMATCH, WM_ABORT_ALL,
    WM_ABORT_TO_STARSTAR, expandPosix, epCont, posixExpand, posixUniExp, posixAsciiExp,
    posixTokenName, hasFlag_eval, reMatch, anyAux, nsAux, preAux, translateComponent, tcCont,
    splitRB, splitSlash, buildAtoms, compileRegex, atomOk, classBodyOk, parseSetItems, lexSet,
    parseToks, tokCode, codeItem, classEscChar, hexVal, membSet, itemMatch, reClassMatch,
    lowerAZ, GitIgnorePattern.build, GitIgnorePattern.hits, GitIgnorePattern.matchFn, buildS,
    pyLower, rstripSlashes, pyBasename, normalizeBS, scopeAdjust, stepRule, shouldIgnore,
    shouldIgnoreS, matchesQuery, pyIsDigit, pyIsWord, pyIsSpace, posix_alpha, posix_cntrl,
    posix_lower, posix_print, posix_punct, posix_upper, punctChars]

/-- Claim C5 (counterexample): under `UNICODE_CLASSES`, the negated
POSIX-class bracket `[![:alpha:]]` matches the alphabetic character `x`,
although the claim states it matches exactly the characters NOT in the
class. -/
theorem C5_counterexample :
    wildmatchS "[![:alpha:]]" "x" WM_UNICODE = WM_MATCH := by
  simp [wildmatchS, wildmatch, dowild, doLoop, doBracket, starLoop, bracketMatched, bracketScan,
    splitCB, WM_CASEFOLD, WM_PATHNAME, WM_UNICODE, WM_MATCH, WM_NOMATCH, WM_ABORT_ALL,
    WM_ABORT_TO_STARSTAR, expandPosix, epCont, posixExpand, posixUniExp, posixAsciiExp,
    posixTokenName, hasFlag_eval, reMatch, anyAux, nsAux, preAux, translateComponent, tcCont,
    splitRB, splitSlash, buildAtoms, compileRegex, atomOk, classBodyOk, parseSetItems, lexSet,
    parseToks, tokCode, codeItem, classEscChar, hexVal, membSet, itemMatch, reClassMatch,
    lowerAZ, GitIgnorePattern.build, GitIgnorePattern.hits, GitIgnorePattern.matchFn, buildS,
    pyLower, rstripSlashes, pyBasename, normalizeBS, scopeAdjust, stepRule, shouldIgnore,
    shouldIgnoreS, matchesQuery, pyIsDigit, pyIsWord, pyIsSpace, posix_alpha, posix_cntrl,
    posix_lower, posix_print, posix_punct, posix_upper, punctChars]

/-- Claim C5 (amended): a leading `!` or `^` negates bracket membership
(e.g. `[!a-z]` matches `A`), except when the whole bracket content is a
POSIX class token and `UNICODE_CLASSES` is set: then the negation marker
is stripped but ignored, and the bracket matches the class itself. -/
theorem C5_negation_dropped_for_unicode_posix :
    wildmatchS "[!a-z]" "A" 0 = WM_MATCH ∧
    (∀ c : Char, wildmatch "[![:alpha:]]".data [c] WM_UNICODE =
      (if posix_alpha c then WM_MATCH else WM_NOMATCH)) := by
  constructor
  · simp [wildmatchS, wildmatch, dowild, doLoop, doBracket, starLoop, bracketMatched, bracketScan,
    splitCB, WM_CASEFOLD, WM_PATHNAME, WM_UNICODE, WM_MATCH, WM_NOMATCH, WM_ABORT_ALL,
    WM_ABORT_TO_STARSTAR, expandPosix, epCont, posixExpand, posixUniExp, posixAsciiExp,
    posixTokenName, hasFlag_eval, reMatch, anyAux, nsAux, preAux, translateComponent, tcCont,
    splitRB, splitSlash, buildAtoms, compileRegex, atomOk, classBodyOk, parseSetItems, lexSet,
    parseToks, tokCode, codeItem, classEscChar, hexVal, membSet, itemMatch, reClassMatch,
    lowerAZ, GitIgnorePattern.build, GitIgnorePattern.hits, GitIgnorePattern.matchFn, buildS,
    pyLower, rstripSlashes, pyBasename, normalizeBS, scopeAdjust, stepRule, shouldIgnore,
    shouldIgnoreS, matchesQuery, pyIsDigit, pyIsWord, pyIsSpace, posix_alpha, posix_cntrl,
    posix_lower, posix_print, posix_punct, posix_upper, punctChars]
  · intro c
    by_cases h : posix_alpha c <;>
      simp [wildmatchS, wildmatch, dowild, doLoop, doBracket, starLoop, bracketMatched, bracketScan,
    splitCB, WM_CASEFOLD, WM_PATHNAME, WM_UNICODE, WM_MATCH, WM_NOMATCH, WM_ABORT_ALL,
    WM_ABORT_TO_STARSTAR, expandPosix, epCont, posixExpand, posixUniExp, posixAsciiExp,
    posixTokenName, hasFlag_eval, reMatch, anyAux, nsAux, preAux, translateComponent, tcCont,
    splitRB, splitSlash, buildAtoms, compileRegex, atomOk, classBodyOk, parseSetItems, lexSet,
    parseToks, tokCode, codeItem, classEscChar, hexVal, membSet, itemMatch, reClassMatch,
    lowerAZ, GitIgnorePattern.build, GitIgnorePattern.hits, GitIgnorePattern.matchFn, buildS,
    pyLower, rstripSlashes, pyBasename, normalizeBS, scopeAdjust, stepRule, shouldIgnore,
    shouldIgnoreS, matchesQuery, pyIsDigit, pyIsWord, pyIsSpace, posix_cntrl,
    posix_lower, posix_print, posix_punct, posix_upper, punctChars, h]

/-- Claim C6 (counterexample): the component translation of path rules
does not reuse the engine's bracket semantics.  The engine's bracket
accepts `5` for `[[:digit:]]` under `WM_UNICODE | WM_PATHNAME`, but the
path rule `a/[[:digit:]]` rejects `a/5`; and an unterminated bracket is
`WM_ABORT_ALL` (reject-all) in the engine but a literal `[` in the path
rule, so `a/[a` matches `a/[a` while the engine rejects `[a` ↔ `[a`. -/
theorem C6_counterexample :
    (wildmatchS "[[:digit:]]" "5" (WM_UNICODE ||| WM_PATHNAME) = WM_MATCH ∧
      (buildS "a/[[:digit:]]" "" false).hits "a/5".data false = false) ∧
    (wildmatchS "[a" "[a" (WM_UNICODE ||| WM_PATHNAME) = WM_NOMATCH ∧
      (buildS "a/[a" "" false).hits "a/[a".data false = true) := by
  refine ⟨⟨?_, ?_⟩, ?_, ?_⟩ <;> simp [wildmatchS, wildmatch, dowild, doLoop, doBracket, starLoop, bracketMatched, bracketScan,
    splitCB, WM_CASEFOLD, WM_PATHNAME, WM_UNICODE, WM_MATCH, WM_NOMATCH, WM_ABORT_ALL,
    WM_ABORT_TO_STARSTAR, expandPosix, epCont, posixExpand, posixUniExp, posixAsciiExp,
    posixTokenName, hasFlag_eval, reMatch, anyAux, nsAux, preAux, translateComponent, tcCont,
    splitRB, splitSlash, buildAtoms, compileRegex, atomOk, classBodyOk, parseSetItems, lexSet,
    parseToks, tokCode, codeItem, classEscChar, hexVal, membSet, itemMatch, reClassMatch,
    lowerAZ, GitIgnorePattern.build, GitIgnorePattern.hits, GitIgnorePattern.matchFn, buildS,
    pyLower, rstripSlashes, pyBasename, normalizeBS, scopeAdjust, stepRule, shouldIgnore,
    shouldIgnoreS, matchesQuery, pyIsDigit, pyIsWord, pyIsSpace, posix_alpha, posix_cntrl,
    posix_lower, posix_print, posix_punct, posix_upper, punctChars]


/-! ### Supporting lemmas for the bracket-equivalence theorem (C6)

The comparison domain is bracket contents that are properly terminated
and contain no `[:` POSIX-token opener; on that domain the engine's
bracket branch and the path-rule translation build the same character
class. -/

/-- No `[` immediately followed by `:` occurs in the list (so neither
the engine scanner nor `expand_posix_classes` can see a POSIX token). -/
def noPosixTok : List Char → Bool
  | [] => true
  | c :: r => (!(c == '[' && r.head? == some ':')) && noPosixTok r

theorem noPosixTok_cons {c : Char} {r : List Char}
    (h : noPosixTok (c :: r) = true) :
    (c == '[' && r.head? == some ':') = false ∧ noPosixTok r = true := by
  unfold noPosixTok at h
  constructor
  · rcases hb : (c == '[' && r.head? == some ':') with _ | _
    · rfl
    · rw [hb] at h; simp at h
  · rcases hb : noPosixTok r with _ | _
    · rw [hb] at h; simp at h
    · rfl

theorem noPosixTok_cond {c : Char} {r : List Char}
    (h : noPosixTok (c :: r) = true) : ¬ (c = '[' ∧ r.head? = some ':') := by
  intro hc
  have h1 := (noPosixTok_cons h).1
  obtain ⟨hc1, hc2⟩ := hc
  subst hc1
  rw [hc2] at h1
  simp at h1

theorem noPosixTok_tail {c : Char} {r : List Char}
    (h : noPosixTok (c :: r) = true) : noPosixTok r = true :=
  (noPosixTok_cons h).2

theorem posixTokenName_eq_none {l : List Char} (h : noPosixTok l = true) :
    posixTokenName l = none := by
  match l with
  | [] => rfl
  | [c1] => rfl
  | c1 :: c2 :: rest =>
    have hc : ¬ (c1 = '[' ∧ c2 = ':') := by
      intro ⟨hc1, hc2⟩
      exact noPosixTok_cond h ⟨hc1, by rw [hc2]; rfl⟩
    simp [posixTokenName, hc]

theorem expandPosix_id : ∀ (l : List Char) (flags : Nat),
    noPosixTok l = true → expandPosix l flags = l := by
  intro l
  induction l with
  | nil => intro flags h; simp [expandPosix]
  | cons c r ih =>
    intro flags h
    rw [expandPosix]
    rw [if_neg (noPosixTok_cond h)]
    rw [ih flags (noPosixTok_tail h)]

theorem bracketScan_plain : ∀ (inner : List Char), ']' ∉ inner →
    noPosixTok inner = true → bracketScan (inner ++ [']']) = some (inner, []) := by
  intro inner
  induction inner with
  | nil =>
    intro hnb hnp
    simp [bracketScan]
  | cons c r ih =>
    intro hnb hnp
    have hnb2 : ']' ∉ r := fun hm => hnb (List.mem_cons_of_mem _ hm)
    have hcne : c ≠ ']' := fun hc => hnb (hc ▸ List.mem_cons_self c r)
    have hcond : ¬ (c = '[' ∧ ((r ++ [']']).head? = some ':')) := by
      intro ⟨hc1, hc2⟩
      rcases r with _ | ⟨h1, r2⟩
      · simp at hc2
      · simp at hc2
        exact noPosixTok_cond hnp ⟨hc1, by rw [hc2]; rfl⟩
    rw [List.cons_append, bracketScan]
    rw [if_neg hcond, if_neg hcne]
    rw [ih hnb2 (noPosixTok_tail hnp)]
    rfl

theorem splitRB_plain : ∀ (xs : List Char), ']' ∉ xs →
    splitRB (xs ++ [']']) = some (xs, []) := by
  intro xs
  induction xs with
  | nil =>
    intro h
    simp [splitRB]
  | cons c r ih =>
    intro h
    have hcne : c ≠ ']' := fun hc => h (hc ▸ List.mem_cons_self c r)
    have h2 : ']' ∉ r := fun hm => h (List.mem_cons_of_mem _ hm)
    rw [List.cons_append, splitRB]
    rw [if_neg hcne]
    rw [ih h2]
    rfl

/-- The character-class body both sides build from a plain bracket
content: a leading `!` or `^` is rewritten to the class negation `^`. -/
def plainBody (inner : List Char) : List Char :=
  match inner with
  | c0 :: rest => if (c0 == '!') || (c0 == '^') then '^' :: rest else c0 :: rest
  | [] => []

theorem bracketMatched_plain (inner : List Char) (c : Char)
    (hnp : noPosixTok inner = true) :
    bracketMatched inner c 6 = reClassMatch (plainBody inner) false c := by
  rcases inner with _ | ⟨n1, r2⟩
  · simp [bracketMatched, posixTokenName, expandPosix, plainBody, hasFlag_eval,
      WM_CASEFOLD, WM_UNICODE]
  · by_cases hneg : n1 = '!' ∨ n1 = '^'
    · have hpt : posixTokenName r2 = none := posixTokenName_eq_none (noPosixTok_tail hnp)
      have heq : expandPosix r2 6 = r2 := expandPosix_id r2 6 (noPosixTok_tail hnp)
      rcases hneg with h | h <;> subst h <;>
        simp [bracketMatched, hpt, heq, plainBody, hasFlag_eval, WM_CASEFOLD, WM_UNICODE]
    · have hneg1 : n1 ≠ '!' := fun hx => hneg (Or.inl hx)
      have hneg2 : n1 ≠ '^' := fun hx => hneg (Or.inr hx)
      have hpt : posixTokenName (n1 :: r2) = none := posixTokenName_eq_none hnp
      have heq : expandPosix (n1 :: r2) 6 = n1 :: r2 := expandPosix_id (n1 :: r2) 6 hnp
      simp [bracketMatched, hpt, heq, plainBody, hasFlag_eval, WM_CASEFOLD, WM_UNICODE,
        hneg1, hneg2]

theorem translate_plain (inner : List Char) (hnb : ']' ∉ inner) :
    translateComponent ('[' :: inner ++ [']']) = [RAtom.cls (plainBody inner)] := by
  rcases inner with _ | ⟨n1, r2⟩
  · simp [translateComponent, tcCont, splitRB, plainBody]
  · have hnb1 : n1 ≠ ']' := fun hc => hnb (hc ▸ List.mem_cons_self n1 r2)
    have hnb2 : ']' ∉ r2 := fun hm => hnb (List.mem_cons_of_mem _ hm)
    have hs : splitRB (r2 ++ [']']) = some (r2, []) := splitRB_plain r2 hnb2
    by_cases hneg : n1 = '!' ∨ n1 = '^'
    · rcases hneg with h | h <;> subst h <;>
        simp [translateComponent, hs, tcCont, plainBody]
    · have hneg1 : n1 ≠ '!' := fun hx => hneg (Or.inl hx)
      have hneg2 : n1 ≠ '^' := fun hx => hneg (Or.inr hx)
      have hs2 : splitRB (n1 :: (r2 ++ [']'])) = some (n1 :: r2, []) := by
        rw [← List.cons_append]
        exact splitRB_plain (n1 :: r2) (by
          intro hm
          rcases List.mem_cons.mp hm with hx | hx
          · exact hnb1 hx.symm
          · exact hnb2 hx)
      simp [translateComponent, hneg1, hneg2, hs2, tcCont, plainBody]

/-- Claim C6 (amended): for a properly terminated bracket expression
containing no POSIX class token, the compiled path-rule fragment accepts
a single character exactly when the engine's bracket matching accepts
it under `WM_UNICODE ||| WM_PATHNAME` (both reduce to the same character
class, including the malformed cases, where both reject). -/
theorem C6_brackets_agree_without_posix :
    ∀ (inner : List Char) (c : Char),
      ']' ∉ inner → noPosixTok inner = true →
      (dowild ('[' :: inner ++ [']']) [c] (WM_UNICODE ||| WM_PATHNAME) = WM_MATCH ↔
        reMatch false (translateComponent ('[' :: inner ++ [']'])) [c] = true) := by
  intro inner c hnb hnp
  have hor : (WM_UNICODE ||| WM_PATHNAME) = 6 := by decide
  rw [hor]
  have heng : dowild ('[' :: inner ++ [']']) [c] 6 =
      doBracket (bracketScan (inner ++ [']'])) [c] 6 := by
    rw [dowild]
    rw [if_neg (by simp)]
    rw [doLoop.eq_def]
    simp
  rw [heng, bracketScan_plain inner hnb hnp]
  simp only [doBracket]
  rw [bracketMatched_plain inner c hnp]
  rw [translate_plain inner hnb]
  rcases hrc : reClassMatch (plainBody inner) false c with _ | b
  · simp [reMatch, hrc, WM_ABORT_ALL, WM_MATCH]
  · rcases b with _ | _
    · simp [reMatch, hrc, WM_NOMATCH, WM_MATCH]
    · simp [reMatch, hrc, doLoop, WM_MATCH]

theorem C6_brackets_agree_without_posix_witness :
    dowild ('[' :: "a-z".data ++ [']']) ['b'] (WM_UNICODE ||| WM_PATHNAME) = WM_MATCH ↔
      reMatch false (translateComponent ('[' :: "a-z".data ++ [']'])) ['b'] = true :=
  C6_brackets_agree_without_posix "a-z".data 'b' (by decide) (by decide)

end Runex
